import Mathlib

/-!
Shallow embedding of the preble global scheduler
(`src/multi_node/global_scheduler.py`) and proofs about it.

Python objects are modelled as follows:

* dictionaries become association lists (`List (κ × α)`) with first-match
  lookup; Python keeps keys unique, `mset` overwrites in place and appends
  new keys at the end, matching insertion-order iteration;
* `LPTreeNode` objects become `NodeData` records identified by a numeric
  id (the arena encoding recommended by the spec, section 9); the radix
  tree itself is the mutual inductive `LPTree`/`LPForest`;
* a node together with its chain of ancestors is a `Chain`
  (`List NodeData`, head = the node, `[]` = Python `None`);
* wall-clock timestamps, durations, TTFT values and load costs become `ℚ`
  (Python floats; none of the verified claims depends on rounding);
* code that can raise returns `Except String _` with the Python
  exception class as the message.
-/

set_option maxHeartbeats 1000000

/-- First-match lookup in an association list (Python `dict.get`). -/
def mlookup {κ α : Type} [DecidableEq κ] : List (κ × α) → κ → Option α
  | [], _ => none
  | (k, v) :: rest, key => if key = k then some v else mlookup rest key

/-- Store a binding (Python `d[k] = v`): overwrite in place when the key is
present, append at the end otherwise. -/
def mset {κ α : Type} [DecidableEq κ] : List (κ × α) → κ → α → List (κ × α)
  | [], key, v => [(key, v)]
  | (k, w) :: rest, key, v =>
    if key = k then (k, v) :: rest else (k, w) :: mset rest key v

/-- Remove a binding (Python `del d[k]` / `d.pop(k)`). -/
def mdel {κ α : Type} [DecidableEq κ] (m : List (κ × α)) (key : κ) : List (κ × α) :=
  m.filter (fun p => p.1 ≠ key)

theorem mlookup_mset_self {κ α : Type} [DecidableEq κ] (m : List (κ × α)) (k : κ) (v : α) :
    mlookup (mset m k v) k = some v := by
  induction m with
  | nil => simp [mset, mlookup]
  | cons p rest ih =>
    obtain ⟨k', v'⟩ := p
    by_cases h : k = k' <;> simp [mset, mlookup, h, ih]

theorem mlookup_mset_ne {κ α : Type} [DecidableEq κ] (m : List (κ × α)) (k k' : κ) (v : α)
    (h : k' ≠ k) : mlookup (mset m k v) k' = mlookup m k' := by
  induction m with
  | nil => simp [mset, mlookup, h]
  | cons p rest ih =>
    obtain ⟨a, b⟩ := p
    by_cases ha : k = a
    · subst ha
      simp [mset, mlookup, h]
    · by_cases hb : k' = a <;> simp [mset, mlookup, ha, hb, ih]

theorem mlookup_mdel_self {κ α : Type} [DecidableEq κ] (m : List (κ × α)) (k : κ) :
    mlookup (mdel m k) k = none := by
  induction m with
  | nil => rfl
  | cons p rest ih =>
    obtain ⟨a, b⟩ := p
    unfold mdel at ih ⊢
    rw [List.filter_cons]
    by_cases h : a = k
    · rw [if_neg (by simp [h])]
      exact ih
    · rw [if_pos (by simp [h])]
      simp only [mlookup, if_neg (Ne.symm h)]
      exact ih

theorem mlookup_mdel_ne {κ α : Type} [DecidableEq κ] (m : List (κ × α)) (k k' : κ)
    (h : k' ≠ k) : mlookup (mdel m k) k' = mlookup m k' := by
  induction m with
  | nil => rfl
  | cons p rest ih =>
    obtain ⟨a, b⟩ := p
    unfold mdel at ih ⊢
    rw [List.filter_cons]
    by_cases ha : a = k
    · rw [if_neg (by simp [ha])]
      simp only [mlookup, if_neg (ha ▸ h)]
      exact ih
    · rw [if_pos (by simp [ha])]
      simp only [mlookup]
      by_cases hb : k' = a
      · simp [hb]
      · simp only [if_neg hb]
        exact ih

/-- Membership of a key (Python `k in d`). -/
def mmem {κ α : Type} [DecidableEq κ] (m : List (κ × α)) (key : κ) : Bool :=
  (mlookup m key).isSome

/-- A Python `set` of worker ids, as a duplicate-free list; the list order
models CPython's unspecified set iteration order. -/
abbrev WorkerSet := List ℕ

/-- Python `s.add(g)` (the new element lands at an arbitrary place in the
iteration order; the end is used here). -/
def sadd (s : WorkerSet) (g : ℕ) : WorkerSet := if g ∈ s then s else s ++ [g]

/-- Python `a.union(b)`: a fresh set with the elements of both. -/
def sunion (a b : WorkerSet) : WorkerSet := a ++ b.filter (fun x => ¬ x ∈ a)

theorem mem_sadd_of_mem (s : WorkerSet) (g x : ℕ) (h : x ∈ s) : x ∈ sadd s g := by
  unfold sadd
  by_cases hg : g ∈ s
  · rw [if_pos hg]; exact h
  · rw [if_neg hg]; exact List.mem_append_left _ h

/-! ## TTFTWindowedOverloadedDetector

`self.data` maps `(node, gpu)` keys to time-ordered lists of
`(timestamp, ttft)` samples. -/

abbrev DetMap := List ((ℕ × ℕ) × List (ℚ × ℚ))

/-- Mean of a list of rationals (Python `sum(l) / len(l)`). -/
def listAvg (l : List ℚ) : ℚ := l.sum / l.length

/-- `TTFTWindowedOverloadedDetector.calculate_half_window_averages`.
`half_window` is `self.half_window_duration = window_duration / 2`; `now` is
the value of `datetime.now()` at call time.  The Python loop partitions the
samples by `timestamp < now - half_window`, which is the two filters below.
A missing key or an empty half yields `(None, None)`. -/
def calculate_half_window_averages (half_window : ℚ) (data : DetMap) (now : ℚ)
    (key : ℕ × ℕ) : Option ℚ × Option ℚ :=
  match mlookup data key with
  | none => (none, none)
  | some samples =>
    if ((samples.filter (fun p => p.1 < now - half_window)).map Prod.snd).length = 0 then
      (none, none)
    else if ((samples.filter (fun p => ¬ p.1 < now - half_window)).map Prod.snd).length = 0 then
      (none, none)
    else
      (some (listAvg ((samples.filter (fun p => p.1 < now - half_window)).map Prod.snd)),
       some (listAvg ((samples.filter (fun p => ¬ p.1 < now - half_window)).map Prod.snd)))

/-- `TTFTWindowedOverloadedDetector.is_node_overloaded`.  The Python guard
returns `False` only when both averages are `None`; if exactly one were
`None` the comparison `avg_second_half >= 2 * avg_first_half` would raise a
`TypeError` (that case is proved unreachable in the C3 theorem). -/
def is_node_overloaded (half_window : ℚ) (data : DetMap) (now : ℚ)
    (node gpu : ℕ) : Except String Bool :=
  match calculate_half_window_averages half_window data now (node, gpu) with
  | (none, none) => Except.ok false
  | (some a, some b) => Except.ok (decide (2 * a ≤ b))
  | _ => Except.error "TypeError"

/-- `TTFTWindowedOverloadedDetector.delete_after_allocation`. -/
def delete_after_allocation (data : DetMap) (node gpu : ℕ) : DetMap :=
  mdel data (node, gpu)

/-- `TTFTWindowedOverloadedDetector.rename_node`. -/
def detector_rename_node (data : DetMap) (old_node new_node gpu : ℕ) : DetMap :=
  match mlookup data (old_node, gpu) with
  | none => data
  | some samples => mset (mdel data (old_node, gpu)) (new_node, gpu) samples

/-- Case equation: no sample series for the key. -/
theorem calc_eq_no_series (half_window now : ℚ) (data : DetMap) (key : ℕ × ℕ)
    (h : mlookup data key = none) :
    calculate_half_window_averages half_window data now key = (none, none) := by
  simp only [calculate_half_window_averages, h]

/-- Case equation: first half of the window empty. -/
theorem calc_eq_first_empty (half_window now : ℚ) (data : DetMap) (key : ℕ × ℕ)
    (samples : List (ℚ × ℚ)) (h : mlookup data key = some samples)
    (h1 : ((samples.filter (fun p => p.1 < now - half_window)).map Prod.snd).length = 0) :
    calculate_half_window_averages half_window data now key = (none, none) := by
  simp only [calculate_half_window_averages, h, h1, if_pos]

/-- Case equation: second half of the window empty. -/
theorem calc_eq_second_empty (half_window now : ℚ) (data : DetMap) (key : ℕ × ℕ)
    (samples : List (ℚ × ℚ)) (h : mlookup data key = some samples)
    (h1 : ¬ ((samples.filter (fun p => p.1 < now - half_window)).map Prod.snd).length = 0)
    (h2 : ((samples.filter (fun p => ¬ p.1 < now - half_window)).map Prod.snd).length = 0) :
    calculate_half_window_averages half_window data now key = (none, none) := by
  simp only [calculate_half_window_averages, h, if_neg h1, h2, if_pos]

/-- Case equation: both halves non-empty. -/
theorem calc_eq_both (half_window now : ℚ) (data : DetMap) (key : ℕ × ℕ)
    (samples : List (ℚ × ℚ)) (h : mlookup data key = some samples)
    (h1 : ¬ ((samples.filter (fun p => p.1 < now - half_window)).map Prod.snd).length = 0)
    (h2 : ¬ ((samples.filter (fun p => ¬ p.1 < now - half_window)).map Prod.snd).length = 0) :
    calculate_half_window_averages half_window data now key =
      (some (listAvg ((samples.filter (fun p => p.1 < now - half_window)).map Prod.snd)),
       some (listAvg ((samples.filter (fun p => ¬ p.1 < now - half_window)).map Prod.snd))) := by
  simp only [calculate_half_window_averages, h, if_neg h1, if_neg h2]

/-- Helper: `is_node_overloaded` never raises (the mixed `None` cases of
`calculate_half_window_averages` are unreachable). -/
theorem is_node_overloaded_total (half_window now : ℚ) (data : DetMap) (node gpu : ℕ) :
    ∃ b, is_node_overloaded half_window data now node gpu = Except.ok b := by
  unfold is_node_overloaded
  cases h : mlookup data (node, gpu) with
  | none =>
    rw [calc_eq_no_series half_window now data (node, gpu) h]
    exact ⟨false, rfl⟩
  | some samples =>
    by_cases h1 :
        ((samples.filter (fun p => p.1 < now - half_window)).map Prod.snd).length = 0
    · rw [calc_eq_first_empty half_window now data (node, gpu) samples h h1]
      exact ⟨false, rfl⟩
    · by_cases h2 :
          ((samples.filter (fun p => ¬ p.1 < now - half_window)).map Prod.snd).length = 0
      · rw [calc_eq_second_empty half_window now data (node, gpu) samples h h1 h2]
        exact ⟨false, rfl⟩
      · rw [calc_eq_both half_window now data (node, gpu) samples h h1 h2]
        exact ⟨_, rfl⟩

/-- C3: `is_node_overloaded(node, gpu)` never raises, and it returns `true`
exactly when a sample series exists for `(node, gpu)`, both halves of the
current window (split at `now - window/2`) are non-empty, and the mean of
the second half is at least twice the mean of the first half.  In every
other case (missing series, or an empty half) it returns `false`. -/
theorem is_node_overloaded_iff (half_window now : ℚ) (data : DetMap) (node gpu : ℕ) :
    (∃ b, is_node_overloaded half_window data now node gpu = Except.ok b) ∧
    (is_node_overloaded half_window data now node gpu = Except.ok true ↔
      ∃ samples, mlookup data (node, gpu) = some samples ∧
        (samples.filter (fun p => p.1 < now - half_window)) ≠ [] ∧
        (samples.filter (fun p => ¬ p.1 < now - half_window)) ≠ [] ∧
        2 * listAvg ((samples.filter (fun p => p.1 < now - half_window)).map Prod.snd) ≤
          listAvg ((samples.filter (fun p => ¬ p.1 < now - half_window)).map Prod.snd)) := by
  refine ⟨is_node_overloaded_total half_window now data node gpu, ?_⟩
  unfold is_node_overloaded
  have hf : ∀ l : List (ℚ × ℚ), (l.map Prod.snd).length = 0 ↔ l = [] := by
    intro l
    rw [List.length_map, List.length_eq_zero]
  cases h : mlookup data (node, gpu) with
  | none =>
    rw [calc_eq_no_series half_window now data (node, gpu) h]
    constructor
    · intro he
      exact absurd he (by simp)
    · rintro ⟨samples, hs, -⟩
      exact absurd hs (by simp)
  | some samples =>
    by_cases h1 :
        ((samples.filter (fun p => p.1 < now - half_window)).map Prod.snd).length = 0
    · rw [calc_eq_first_empty half_window now data (node, gpu) samples h h1]
      constructor
      · intro he
        exact absurd he (by simp)
      · rintro ⟨samples', hs, hne, -, -⟩
        cases hs
        exact absurd ((hf _).mp h1) hne
    · by_cases h2 :
          ((samples.filter (fun p => ¬ p.1 < now - half_window)).map Prod.snd).length = 0
      · rw [calc_eq_second_empty half_window now data (node, gpu) samples h h1 h2]
        constructor
        · intro he
          exact absurd he (by simp)
        · rintro ⟨samples', hs, -, hne, -⟩
          cases hs
          exact absurd ((hf _).mp h2) hne
      · rw [calc_eq_both half_window now data (node, gpu) samples h h1 h2]
        constructor
        · intro he
          refine ⟨samples, rfl, ?_, ?_, ?_⟩
          · intro hcon
            exact h1 (by rw [hcon]; rfl)
          · intro hcon
            exact h2 (by rw [hcon]; rfl)
          · have := Except.ok.inj he
            exact of_decide_eq_true this
        · rintro ⟨samples', hs, -, -, hle⟩
          cases hs
          exact congrArg Except.ok (decide_eq_true hle)

/-! ## SlidingWindowHistogram

`gpu_allocations` is the *same* dictionary object as the scheduler's
allocation map (aliased in `GlobalScheduler.__init__`), so histogram
operations that mutate it take it as an argument and return the updated
map.  Nodes are identified by their arena id; an event records
`(timestamp, important_node id, leaf_node.context_length)`. -/

abbrev AllocMap := List (ℕ × WorkerSet)
abbrev EventList := List (ℚ × ℕ × ℕ)
abbrev CountMap := List (ℕ × ℤ)

structure SlidingWindowHistogram where
  window_duration : ℚ
  timestamps : EventList
  histogram : CountMap
  node_to_count : CountMap

/-- The `while` loop of `SlidingWindowHistogram._remove_old_entries`.
Python re-reads `self.histogram[node]` right after assigning it, which is
the local value `hv` below.  The final `List ℕ` output is a ghost record of
the nodes deleted in the `if self.histogram[node] <= 0` branch (the branch
also resets the node's gpu allocation to the empty set). -/
def remove_old_entries_loop (window_start : ℚ) :
    EventList → CountMap → CountMap → AllocMap →
      EventList × CountMap × CountMap × AllocMap × List ℕ
  | [], h, c, a => ([], h, c, a, [])
  | (t, node, ctx) :: rest, h, c, a =>
    if t < window_start then
      let hv := (mlookup h node).getD 0 - (ctx : ℤ)
      let h1 := mset h node hv
      let c1 := mset c node ((mlookup c node).getD 0 - 1)
      if hv ≤ 0 then
        let r := remove_old_entries_loop window_start rest (mdel h1 node) (mdel c1 node)
          (mset a node [])
        (r.1, r.2.1, r.2.2.1, r.2.2.2.1, node :: r.2.2.2.2)
      else
        remove_old_entries_loop window_start rest h1 c1 a
    else ((t, node, ctx) :: rest, h, c, a, [])

/-- `SlidingWindowHistogram._remove_old_entries`. -/
def remove_old_entries (hs : SlidingWindowHistogram) (allocs : AllocMap)
    (current_timestamp : ℚ) : SlidingWindowHistogram × AllocMap × List ℕ :=
  let r := remove_old_entries_loop (current_timestamp - hs.window_duration)
    hs.timestamps hs.histogram hs.node_to_count allocs
  ({ hs with timestamps := r.1, histogram := r.2.1, node_to_count := r.2.2.1 },
   r.2.2.2.1, r.2.2.2.2)

/-- `SlidingWindowHistogram.update`: append the event, add
`leaf_node.context_length` to the weighted count and `1` to the event
count, then purge expired events. -/
def histogram_update (hs : SlidingWindowHistogram) (allocs : AllocMap) (timestamp : ℚ)
    (node : ℕ) (leaf_context_length : ℕ) : SlidingWindowHistogram × AllocMap × List ℕ :=
  remove_old_entries
    { hs with
      timestamps := hs.timestamps ++ [(timestamp, node, leaf_context_length)],
      histogram := mset hs.histogram node
        ((mlookup hs.histogram node).getD 0 + (leaf_context_length : ℤ)),
      node_to_count := mset hs.node_to_count node
        ((mlookup hs.node_to_count node).getD 0 + 1) }
    allocs timestamp

/-- `SlidingWindowHistogram.rename_node`.  `node_to_count.pop(old)` is read
with a default here; the two maps always hold exactly the same keys in any
reachable state, so the default is never used when `old ∈ histogram`. -/
def histogram_rename_node (hs : SlidingWindowHistogram) (old_node new_node : ℕ) :
    SlidingWindowHistogram :=
  match mlookup hs.histogram old_node with
  | none => hs
  | some v =>
    { hs with
      histogram := mset (mdel hs.histogram old_node) new_node v,
      node_to_count := mset (mdel hs.node_to_count old_node) new_node
        ((mlookup hs.node_to_count old_node).getD 0),
      timestamps := hs.timestamps.map
        (fun e => (e.1, if e.2.1 = old_node then new_node else e.2.1, e.2.2)) }

/-- The per-node deletion property of the purge: both count entries are
gone and the allocation set was reset to `∅`. -/
def purged_node_prop (n : ℕ) (h c : CountMap) (a : AllocMap) : Prop :=
  mlookup h n = none ∧ mlookup c n = none ∧ mlookup a n = some []

theorem remove_old_entries_loop_preserves (window_start : ℚ) (events : EventList)
    (h c : CountMap) (a : AllocMap) (n : ℕ)
    (hp : purged_node_prop n h c a) :
    purged_node_prop n (remove_old_entries_loop window_start events h c a).2.1
      (remove_old_entries_loop window_start events h c a).2.2.1
      (remove_old_entries_loop window_start events h c a).2.2.2.1 := by
  induction events generalizing h c a with
  | nil => exact hp
  | cons e rest ih =>
    obtain ⟨t, m, ctx⟩ := e
    unfold remove_old_entries_loop
    by_cases ht : t < window_start
    · rw [if_pos ht]
      by_cases hm : n = m
      · subst hm
        obtain ⟨hh, hc, ha⟩ := hp
        rw [hh]
        simp only [Option.getD_none, zero_sub]
        rw [if_pos (by omega)]
        exact ih _ _ _ ⟨mlookup_mdel_self _ _, mlookup_mdel_self _ _, mlookup_mset_self _ _ _⟩
      · obtain ⟨hh, hc, ha⟩ := hp
        by_cases hv : (mlookup h m).getD 0 - (ctx : ℤ) ≤ 0
        · rw [if_pos hv]
          refine ih _ _ _ ⟨?_, ?_, ?_⟩
          · rw [mlookup_mdel_ne _ _ _ hm, mlookup_mset_ne _ _ _ _ hm]
            exact hh
          · rw [mlookup_mdel_ne _ _ _ hm, mlookup_mset_ne _ _ _ _ hm]
            exact hc
          · rw [mlookup_mset_ne _ _ _ _ hm]
            exact ha
        · rw [if_neg hv]
          refine ih _ _ _ ⟨?_, ?_, ?_⟩
          · rw [mlookup_mset_ne _ _ _ _ hm]
            exact hh
          · rw [mlookup_mset_ne _ _ _ _ hm]
            exact hc
          · exact ha
    · rw [if_neg ht]
      exact hp

theorem remove_old_entries_loop_deleted (window_start : ℚ) (events : EventList)
    (h c : CountMap) (a : AllocMap) :
    ∀ n ∈ (remove_old_entries_loop window_start events h c a).2.2.2.2,
      purged_node_prop n (remove_old_entries_loop window_start events h c a).2.1
        (remove_old_entries_loop window_start events h c a).2.2.1
        (remove_old_entries_loop window_start events h c a).2.2.2.1 := by
  induction events generalizing h c a with
  | nil => intro n hn; exact absurd hn (by simp [remove_old_entries_loop])
  | cons e rest ih =>
    obtain ⟨t, m, ctx⟩ := e
    unfold remove_old_entries_loop
    by_cases ht : t < window_start
    · rw [if_pos ht]
      by_cases hv : (mlookup h m).getD 0 - (ctx : ℤ) ≤ 0
      · rw [if_pos hv]
        intro n hn
        simp only [List.mem_cons] at hn
        cases hn with
        | inl hn =>
          subst hn
          exact remove_old_entries_loop_preserves _ _ _ _ _ _
            ⟨mlookup_mdel_self _ _, mlookup_mdel_self _ _, mlookup_mset_self _ _ _⟩
        | inr hn => exact ih _ _ _ n hn
      · rw [if_neg hv]
        exact ih _ _ _
    · rw [if_neg ht]
      intro n hn
      exact absurd hn (by simp)

theorem remove_old_entries_loop_window (window_start : ℚ) (events : EventList)
    (h c : CountMap) (a : AllocMap)
    (hsorted : events.Pairwise (fun e e' => e.1 ≤ e'.1)) :
    ∀ e ∈ (remove_old_entries_loop window_start events h c a).1,
      window_start ≤ e.1 := by
  induction events generalizing h c a with
  | nil => intro e he; exact absurd he (by simp [remove_old_entries_loop])
  | cons ev rest ih =>
    obtain ⟨t, m, ctx⟩ := ev
    rw [List.pairwise_cons] at hsorted
    unfold remove_old_entries_loop
    by_cases ht : t < window_start
    · rw [if_pos ht]
      by_cases hv : (mlookup h m).getD 0 - (ctx : ℤ) ≤ 0
      · rw [if_pos hv]
        exact ih _ _ _ hsorted.2
      · rw [if_neg hv]
        exact ih _ _ _ hsorted.2
    · rw [if_neg ht]
      intro e he
      simp only [List.mem_cons] at he
      cases he with
      | inl he => rw [he]; exact le_of_not_lt ht
      | inr he => exact le_trans (le_of_not_lt ht) (hsorted.1 e he)

/-- C4: after a histogram `update` at time `t` (events having arrived in
time order), every event left in the FIFO has timestamp at least
`t - window`, and every node whose weighted count reached `≤ 0` during the
purge (the ghost list of `remove_old_entries_loop`) has both its
weighted-count and event-count entries deleted and its gpu-allocation
entry reset to the empty set. -/
theorem histogram_update_purges (hs : SlidingWindowHistogram) (allocs : AllocMap)
    (t : ℚ) (node leaf_context_length : ℕ)
    (hsorted : hs.timestamps.Pairwise (fun e e' => e.1 ≤ e'.1))
    (hmono : ∀ e ∈ hs.timestamps, e.1 ≤ t) :
    (∀ e ∈ (histogram_update hs allocs t node leaf_context_length).1.timestamps,
      t - hs.window_duration ≤ e.1) ∧
    (∀ n ∈ (histogram_update hs allocs t node leaf_context_length).2.2,
      mlookup (histogram_update hs allocs t node leaf_context_length).1.histogram n = none ∧
      mlookup (histogram_update hs allocs t node leaf_context_length).1.node_to_count n = none ∧
      mlookup (histogram_update hs allocs t node leaf_context_length).2.1 n = some []) := by
  have hsorted' :
      (hs.timestamps ++ [(t, node, leaf_context_length)]).Pairwise
        (fun e e' => e.1 ≤ e'.1) := by
    rw [List.pairwise_append]
    exact ⟨hsorted, List.pairwise_singleton _ _, by
      intro e he e' he'
      simp only [List.mem_singleton] at he'
      rw [he']
      exact hmono e he⟩
  constructor
  · intro e he
    exact remove_old_entries_loop_window _ _ _ _ _ hsorted' e he
  · intro n hn
    exact remove_old_entries_loop_deleted _ _ _ _ _ n hn

/-! ## Tree nodes and ancestor chains

`LPTreeNode` objects (defined in `global_lru_cache`, outside `src/`) are
modelled as `NodeData` records keyed by an arena id, carrying the
attributes the scheduler reads: the token segment `value`, the cumulative
`context_length`, `cached_gpus` and the per-worker `ref_counter`.  A
`Chain` is a node followed by its ancestors up to the root; the empty
chain is Python `None`, so the structurally recursive walks below are the
`node.parent` recursions of the source. -/

structure NodeData where
  id : ℕ
  value : List ℕ
  context_length : ℕ
  cached_gpus : WorkerSet
  ref_counter : List (ℕ × ℕ)
deriving DecidableEq

/-- `LPTreeNode.num_tokens = len(node.value)`. -/
def num_tokens (d : NodeData) : ℕ := d.value.length

abbrev Chain := List NodeData

/-- `GlobalScheduler.is_large_node`: `num_tokens > context_length - num_tokens`
(Python integers, so the subtraction is over `ℤ`). -/
def is_large_node (d : NodeData) : Bool :=
  decide ((d.context_length : ℤ) - (num_tokens d : ℤ) < (num_tokens d : ℤ))

/-- Modelled from the spec: `LPTreeNode.has_cached_gpu` lives in
`global_lru_cache`, which is not under `src/`; per the spec's data model,
`cached_gpus` is "the set of WorkerId currently believed to hold this
prefix warm", so the test is membership. -/
def has_cached_gpu (d : NodeData) (gpu : ℕ) : Bool := decide (gpu ∈ d.cached_gpus)

/-- `GlobalScheduler.get_parent_gpu_allocation`: walk ancestors until an
allocation entry is truthy (present *and* non-empty); `self.all_gpus`
(= `set(range(num_nodes))`) when the chain runs out. -/
def get_parent_gpu_allocation (num_gpus : ℕ) (allocs : AllocMap) : Chain → WorkerSet
  | [] => List.range num_gpus
  | d :: rest =>
    if (mlookup allocs d.id).getD [] ≠ [] then (mlookup allocs d.id).getD []
    else get_parent_gpu_allocation num_gpus allocs rest

/-- `GlobalScheduler.update_gpu_allocation_for_parent`: union `gpu_id` into
the allocation entry of the node and of every ancestor. -/
def update_gpu_allocation_for_parent : AllocMap → Chain → WorkerSet → AllocMap
  | allocs, [], _ => allocs
  | allocs, d :: rest, gpu_id =>
    update_gpu_allocation_for_parent
      (mset allocs d.id (sunion ((mlookup allocs d.id).getD []) gpu_id)) rest gpu_id

/-- `GlobalScheduler.update_gpu_cache_for_parent`.  After updating
`node.cached_gpus` the source calls `self.update_cached_gpus_of_parent`,
a method that exists nowhere in the class (nor anywhere else in the
repository), so on any non-`None` node the call raises `AttributeError`
right after the first update; the recursion never reaches the parent.
The returned pair is (chain as mutated so far, raised exception). -/
def update_gpu_cache_for_parent : Chain → WorkerSet → Chain × Option String
  | [], _ => ([], none)
  | d :: rest, gpu_id =>
    ({ d with cached_gpus := sunion d.cached_gpus gpu_id } :: rest,
     some "AttributeError: update_cached_gpus_of_parent")

/-- `GlobalScheduler.get_important_node`: nearest large ancestor
(inclusive).  Walking past the root calls `is_large_node(None)`, which
raises `AttributeError` in Python. -/
def get_important_node : Chain → Except String NodeData
  | [] => Except.error "AttributeError: NoneType has no attribute num_tokens"
  | d :: rest => if is_large_node d then Except.ok d else get_important_node rest

/-- `GlobalScheduler.get_recomp_cost_basic`: sum of
`num_tokens * ref_counter[gpu_id]` over the uncached ancestor chain. -/
def get_recomp_cost_basic : Chain → ℕ → ℕ
  | [], _ => 0
  | d :: rest, gpu_id =>
    if has_cached_gpu d gpu_id then 0
    else num_tokens d * (mlookup d.ref_counter gpu_id).getD 0 +
      get_recomp_cost_basic rest gpu_id

/-- C8 (code bug): `update_gpu_cache_for_parent` is specified to add the
worker set to `cached_gpus` at the leaf and at every ancestor, but the
recursive call targets the non-existent method
`update_cached_gpus_of_parent`: evaluated on a leaf (id 1) whose parent is
the root (id 0), it updates only the leaf's `cached_gpus` and raises
`AttributeError`; the root's `cached_gpus` is left `∅`. -/
theorem update_gpu_cache_for_parent_raises :
    update_gpu_cache_for_parent
        [⟨1, [10], 1, [], []⟩, ⟨0, [], 0, [], []⟩] [0] =
      ([⟨1, [10], 1, [0], []⟩, ⟨0, [], 0, [], []⟩],
       some "AttributeError: update_cached_gpus_of_parent") := by
  simp [update_gpu_cache_for_parent, sunion]

/-! ## `SlidingWindowHistogram.current_allocation_per_gpu`

`allocation` is a Python list of length `num_gpus`; `allocation[gpu] += …`
on an index outside the list would raise `IndexError`, hence the
`Except`.  A node with no allocation entry iterates over `{}` (no
contribution), and `len(...)` in the divisor is only evaluated inside the
loop body, i.e. when the set is non-empty. -/

/-- `l[i] += v` on a Python list. -/
def bumpAt : List ℚ → ℕ → ℚ → Option (List ℚ)
  | [], _, _ => none
  | x :: xs, 0, v => some ((x + v) :: xs)
  | x :: xs, n + 1, v => (bumpAt xs n v).map (fun l => x :: l)

/-- Loop body of `current_allocation_per_gpu` for one histogram entry
(iteration order over a Python set is unspecified; the sum is
order-independent, so any enumeration of the set gives the same vector). -/
def alloc_fold_node (allocs : AllocMap) (acc : List ℚ) (node : ℕ) (cost : ℤ) :
    Except String (List ℚ) :=
  match mlookup allocs node with
  | none => Except.ok acc
  | some s =>
    s.foldlM (fun l gpu =>
      match bumpAt l gpu ((cost : ℚ) / (s.length : ℚ)) with
      | some l2 => Except.ok l2
      | none => Except.error "IndexError") acc

/-- `SlidingWindowHistogram.current_allocation_per_gpu`. -/
def current_allocation_per_gpu (num_gpus : ℕ) (histogram : CountMap)
    (allocs : AllocMap) : Except String (List ℚ) :=
  histogram.foldlM (fun acc p => alloc_fold_node allocs acc p.1 p.2)
    (List.replicate num_gpus 0)

/-- The load vector as the spec words it: each node distributes its
weighted count equally across its allocation set, nodes with an empty or
absent set contributing nothing. -/
def spec_per_worker_load (allocs : AllocMap) (histogram : CountMap) (w : ℕ) : ℚ :=
  (histogram.map (fun p =>
    if w ∈ (mlookup allocs p.1).getD []
    then (p.2 : ℚ) / (((mlookup allocs p.1).getD []).length : ℚ) else 0)).sum

theorem bumpAt_spec (l : List ℚ) (i : ℕ) (v : ℚ) (h : i < l.length) :
    ∃ l2, bumpAt l i v = some l2 ∧ l2.length = l.length ∧
      ∀ j, l2.getD j 0 = if j = i then l.getD j 0 + v else l.getD j 0 := by
  induction l generalizing i with
  | nil => exact absurd h (by simp)
  | cons x xs ih =>
    cases i with
    | zero =>
      refine ⟨(x + v) :: xs, rfl, by simp, ?_⟩
      intro j
      cases j with
      | zero => simp
      | succ j => simp
    | succ i =>
      obtain ⟨l2, hb, hlen, hget⟩ := ih i (by simpa using h)
      refine ⟨x :: l2, by simp [bumpAt, hb], by simp [hlen], ?_⟩
      intro j
      cases j with
      | zero => simp
      | succ j => simpa using hget j

theorem gpu_fold_spec (n : ℕ) (v : ℚ) (gl : List ℕ) (acc : List ℚ)
    (hlen : acc.length = n) (hg : ∀ g ∈ gl, g < n) (hnd : gl.Nodup) :
    ∃ l2,
      (gl.foldlM (fun l gpu =>
        match bumpAt l gpu v with
        | some l2 => Except.ok l2
        | none => Except.error "IndexError") acc : Except String (List ℚ)) =
        Except.ok l2 ∧
      l2.length = n ∧
      ∀ w, l2.getD w 0 = acc.getD w 0 + (if w ∈ gl then v else 0) := by
  induction gl generalizing acc with
  | nil => exact ⟨acc, rfl, hlen, by simp⟩
  | cons g gl ih =>
    obtain ⟨acc1, hb, hlen1, hget1⟩ := bumpAt_spec acc g v (by rw [hlen]; exact hg g (by simp))
    rw [List.nodup_cons] at hnd
    obtain ⟨l2, hfold, hlen2, hget2⟩ := ih acc1 (hlen ▸ hlen1)
      (fun x hx => hg x (List.mem_cons_of_mem g hx)) hnd.2
    refine ⟨l2, ?_, hlen2, ?_⟩
    · rw [List.foldlM_cons, hb]
      exact hfold
    · intro w
      rw [hget2 w, hget1 w]
      by_cases hw : w = g
      · subst hw
        simp [hnd.1, if_neg (fun hc => hnd.1 hc)]
      · by_cases hw2 : w ∈ gl <;> simp [hw, hw2]

theorem alloc_fold_node_spec (n : ℕ) (allocs : AllocMap) (acc : List ℚ) (node : ℕ)
    (cost : ℤ) (hlen : acc.length = n)
    (hsub : ∀ k s, mlookup allocs k = some s → ∀ g ∈ s, g < n)
    (hnd : ∀ k s, mlookup allocs k = some s → s.Nodup) :
    ∃ l2, alloc_fold_node allocs acc node cost = Except.ok l2 ∧
      l2.length = n ∧
      ∀ w, l2.getD w 0 = acc.getD w 0 +
        (if w ∈ (mlookup allocs node).getD []
         then (cost : ℚ) / (((mlookup allocs node).getD []).length : ℚ) else 0) := by
  unfold alloc_fold_node
  cases h : mlookup allocs node with
  | none => exact ⟨acc, rfl, hlen, by simp⟩
  | some s =>
    obtain ⟨l2, hfold, hlen2, hget⟩ := gpu_fold_spec n ((cost : ℚ) / (s.length : ℚ))
      s acc hlen (hsub node s h) (hnd node s h)
    refine ⟨l2, hfold, hlen2, ?_⟩
    intro w
    rw [hget w]
    simp

theorem current_allocation_per_gpu_fold (n : ℕ) (histogram : CountMap)
    (allocs : AllocMap) (acc : List ℚ) (hlen : acc.length = n)
    (hsub : ∀ k s, mlookup allocs k = some s → ∀ g ∈ s, g < n)
    (hnd : ∀ k s, mlookup allocs k = some s → s.Nodup) :
    ∃ l2,
      (histogram.foldlM (fun acc p => alloc_fold_node allocs acc p.1 p.2) acc :
        Except String (List ℚ)) = Except.ok l2 ∧
      l2.length = n ∧
      ∀ w, l2.getD w 0 = acc.getD w 0 + spec_per_worker_load allocs histogram w := by
  induction histogram generalizing acc with
  | nil => exact ⟨acc, rfl, hlen, by simp [spec_per_worker_load]⟩
  | cons p rest ih =>
    obtain ⟨acc1, hstep, hlen1, hget1⟩ :=
      alloc_fold_node_spec n allocs acc p.1 p.2 hlen hsub hnd
    obtain ⟨l2, hfold, hlen2, hget2⟩ := ih acc1 hlen1
    refine ⟨l2, ?_, hlen2, ?_⟩
    · rw [List.foldlM_cons, hstep]
      exact hfold
    · intro w
      rw [hget2 w, hget1 w, spec_per_worker_load, spec_per_worker_load]
      simp only [List.map_cons, List.sum_cons]
      ring

/-- C9: `current_allocation_per_gpu` (assuming every stored allocation set
contains only valid worker ids, as the data model requires) never raises:
it returns a vector of length `num_gpus` whose `w`-th entry distributes
each node's weighted count equally over the node's allocation set — nodes
with an empty or missing set contribute nothing — and every division that
occurs is by the cardinality of a set that contains `w`, hence positive,
never zero. -/
theorem current_allocation_per_gpu_spec (n : ℕ) (histogram : CountMap)
    (allocs : AllocMap)
    (hsub : ∀ k s, mlookup allocs k = some s → ∀ g ∈ s, g < n)
    (hnd : ∀ k s, mlookup allocs k = some s → s.Nodup) :
    ∃ v, current_allocation_per_gpu n histogram allocs = Except.ok v ∧
      v.length = n ∧
      (∀ w, v.getD w 0 = spec_per_worker_load allocs histogram w) ∧
      (∀ p ∈ histogram, ∀ w, w ∈ (mlookup allocs p.1).getD [] →
        0 < (((mlookup allocs p.1).getD []).length : ℚ)) := by
  obtain ⟨l2, hfold, hlen2, hget⟩ := current_allocation_per_gpu_fold n histogram allocs
    (List.replicate n 0) (by simp) hsub hnd
  refine ⟨l2, hfold, hlen2, ?_, ?_⟩
  · intro w
    rw [hget w]
    simp [List.getD]
  · intro p hp w hw
    have : 0 < ((mlookup allocs p.1).getD []).length :=
      List.length_pos.mpr (List.ne_nil_of_mem hw)
    exact_mod_cast this

/-! ## Rebalancer, single-candidate path

Lines 335–345 of `handle_important_node_stealing_recursive`: the heap
holds exactly one `(cost, node)` entry.  `self.gpu_allocations[node]` is a
plain subscript (`KeyError` when absent); the `and` short-circuits, so the
overload detector only runs when `smaller_device` is not already in the
set. -/

def handle_single_node_stealing (allocs : AllocMap) (det : DetMap)
    (half_window now : ℚ) (node_id larger_device smaller_device : ℕ)
    (cost larger_cost smaller_cost : ℚ) :
    Except String (AllocMap × DetMap × ℚ × ℚ) :=
  match mlookup allocs node_id with
  | none => Except.error "KeyError"
  | some s =>
    if smaller_device ∈ s then Except.ok (allocs, det, larger_cost, smaller_cost)
    else
      match is_node_overloaded half_window det now node_id larger_device with
      | Except.error e => Except.error e
      | Except.ok false => Except.ok (allocs, det, larger_cost, smaller_cost)
      | Except.ok true =>
        Except.ok (mset allocs node_id (sadd s smaller_device),
          delete_after_allocation det node_id larger_device,
          larger_cost - cost / 2, smaller_cost + cost / 2)

/-- C5: on the single-candidate rebalancing path, when the cold worker is
not in the node's allocation set *and* the detector reports the node
overloaded on the hot worker, the cold worker is added to the allocation
set (the old workers all remain members), half the node's cost moves from
the hot to the cold load, and the detector series for `(node, hot)` is
deleted; if either condition fails, allocation map, detector and loads are
returned unchanged. -/
theorem handle_single_node_stealing_spec (allocs : AllocMap) (det : DetMap)
    (half_window now : ℚ) (node hot cold : ℕ) (cost hl cl : ℚ) (s : WorkerSet)
    (hs : mlookup allocs node = some s) :
    (cold ∉ s → is_node_overloaded half_window det now node hot = Except.ok true →
      handle_single_node_stealing allocs det half_window now node hot cold cost hl cl =
        Except.ok (mset allocs node (sadd s cold),
          delete_after_allocation det node hot, hl - cost / 2, cl + cost / 2) ∧
      (∀ g ∈ s, g ∈ sadd s cold) ∧
      mlookup (delete_after_allocation det node hot) (node, hot) = none) ∧
    (cold ∈ s ∨ is_node_overloaded half_window det now node hot = Except.ok false →
      handle_single_node_stealing allocs det half_window now node hot cold cost hl cl =
        Except.ok (allocs, det, hl, cl)) := by
  constructor
  · intro hnotin hov
    refine ⟨?_, fun g hg => mem_sadd_of_mem s cold g hg,
      mlookup_mdel_self det (node, hot)⟩
    simp only [handle_single_node_stealing, hs, if_neg hnotin, hov]
  · intro hcond
    rcases hcond with hin | hov
    · simp only [handle_single_node_stealing, hs, if_pos hin]
    · by_cases hin : cold ∈ s
      · simp only [handle_single_node_stealing, hs, if_pos hin]
      · simp only [handle_single_node_stealing, hs, if_neg hin, hov]

/-! ## Split handling

`runtime_selector` propagates cache splits to the allocation map, the
histogram and the overload detector.  A split pair is
`(child, new_intermediate)` as recorded by `LPRadixCache.insert`; the
functions receive the node records as they stand after the split. -/

/-- `GlobalScheduler.handle_split_nodes_gpu_allocations`:
`gpu_allocations[new_node] = gpu_allocations[child_node].copy()` — a plain
subscript on the child, hence `KeyError` when the child has no entry. -/
def handle_split_nodes_gpu_allocations (split_nodes : List (NodeData × NodeData))
    (allocs : AllocMap) : Except String AllocMap :=
  split_nodes.foldlM (fun a cp =>
    match mlookup a cp.1.id with
    | none => Except.error "KeyError"
    | some s => Except.ok (mset a cp.2.id s)) allocs

/-- `GlobalScheduler.handle_split_node_histogram`: when the intermediate is
large and the child is not, rename the child to the intermediate in the
histogram, and in the detector for every gpu in
`self.gpu_allocations.get(child, {})` (set iteration in sorted order;
renames of distinct gpus commute). -/
def handle_split_node_histogram (split_nodes : List (NodeData × NodeData))
    (hs : SlidingWindowHistogram) (det : DetMap) (allocs : AllocMap) :
    SlidingWindowHistogram × DetMap :=
  split_nodes.foldl (fun st cp =>
    if is_large_node cp.2 && !is_large_node cp.1 then
      (histogram_rename_node st.1 cp.1.id cp.2.id,
       ((mlookup allocs cp.1.id).getD []).foldl
         (fun d gpu => detector_rename_node d cp.1.id cp.2.id gpu) st.2)
    else st) (hs, det)

theorem detector_rename_frame (det : DetMap) (old_node new_node g : ℕ) (k : ℕ × ℕ)
    (h1 : k ≠ (old_node, g)) (h2 : k ≠ (new_node, g)) :
    mlookup (detector_rename_node det old_node new_node g) k = mlookup det k := by
  unfold detector_rename_node
  cases h : mlookup det (old_node, g) with
  | none => rfl
  | some samples => rw [mlookup_mset_ne _ _ _ _ h2, mlookup_mdel_ne _ _ _ h1]

theorem detector_rename_moves (det : DetMap) (old_node new_node g : ℕ)
    (q : List (ℚ × ℚ)) (hne : old_node ≠ new_node)
    (h : mlookup det (old_node, g) = some q) :
    mlookup (detector_rename_node det old_node new_node g) (new_node, g) = some q ∧
    mlookup (detector_rename_node det old_node new_node g) (old_node, g) = none := by
  unfold detector_rename_node
  rw [h]
  refine ⟨mlookup_mset_self _ _ _, ?_⟩
  rw [mlookup_mset_ne _ _ _ _ (by simp [hne]), mlookup_mdel_self]

theorem detector_rename_fold_frame (gl : List ℕ) (det : DetMap)
    (old_node new_node : ℕ) (k : ℕ × ℕ)
    (h : ∀ g ∈ gl, k ≠ (old_node, g) ∧ k ≠ (new_node, g)) :
    mlookup (gl.foldl (fun d gpu => detector_rename_node d old_node new_node gpu) det) k =
      mlookup det k := by
  induction gl generalizing det with
  | nil => rfl
  | cons g0 gl ih =>
    rw [List.foldl_cons, ih _ (fun g hg => h g (List.mem_cons_of_mem g0 hg)),
      detector_rename_frame det _ _ _ _ (h g0 (by simp)).1 (h g0 (by simp)).2]

theorem detector_rename_fold_moves (gl : List ℕ) (det : DetMap)
    (old_node new_node : ℕ) (hne : old_node ≠ new_node) (hnd : gl.Nodup) :
    ∀ g ∈ gl, ∀ q, mlookup det (old_node, g) = some q →
      mlookup (gl.foldl (fun d gpu => detector_rename_node d old_node new_node gpu) det)
        (new_node, g) = some q ∧
      mlookup (gl.foldl (fun d gpu => detector_rename_node d old_node new_node gpu) det)
        (old_node, g) = none := by
  induction gl generalizing det with
  | nil => intro g hg; exact absurd hg (by simp)
  | cons g0 gl ih =>
    rw [List.nodup_cons] at hnd
    intro g hg q hq
    rw [List.foldl_cons]
    rcases List.mem_cons.mp hg with hg0 | hgl
    · subst hg0
      obtain ⟨hnew, hold⟩ := detector_rename_moves det old_node new_node g q hne hq
      have hframe : ∀ k : ℕ × ℕ, (∀ g' ∈ gl, k ≠ (old_node, g') ∧ k ≠ (new_node, g')) →
          mlookup (gl.foldl (fun d gpu => detector_rename_node d old_node new_node gpu)
            (detector_rename_node det old_node new_node g)) k =
          mlookup (detector_rename_node det old_node new_node g) k :=
        fun k hk => detector_rename_fold_frame gl _ old_node new_node k hk
      constructor
      · rw [hframe (new_node, g) (fun g' hg' =>
          ⟨by intro hk; injection hk with h1 h2; exact hne h1.symm,
           by intro hk; injection hk with h1 h2; exact hnd.1 (h2 ▸ hg')⟩)]
        exact hnew
      · rw [hframe (old_node, g) (fun g' hg' =>
          ⟨by intro hk; injection hk with h1 h2; exact hnd.1 (h2 ▸ hg'),
           by intro hk; injection hk with h1 h2; exact hne h1⟩)]
        exact hold
    · have hgne : g ≠ g0 := fun hc => hnd.1 (hc ▸ hgl)
      have : mlookup (detector_rename_node det old_node new_node g0) (old_node, g) = some q := by
        rw [detector_rename_frame det _ _ _ _
          (by intro hk; injection hk with h1 h2; exact hgne h2)
          (by intro hk; injection hk with h1 h2; exact hne h1)]
        exact hq
      exact ih _ hnd.2 g hgl q this

/-- C7 counterexample: a split pair whose intermediate (id 2, segment
`[10,11,12]`, context 3) is large while the child (id 1, segment
`[13,14,15]`, context 6) is not, where the overload detector holds a
series for `(child, gpu 1)` but the child's allocation entry is `{0}`.
`handle_split_node_histogram` leaves that series keyed by the child and
creates nothing at the intermediate — the detector loop only touches gpus
in `gpu_allocations.get(child, {})`, so the claim that the child's
overload-detector series are renamed to the intermediate fails here. -/
theorem handle_split_detector_series_kept :
    mlookup (handle_split_node_histogram
        [(⟨1, [13, 14, 15], 6, ∅, []⟩, ⟨2, [10, 11, 12], 3, ∅, []⟩)]
        ⟨180, [], [(1, 5)], [(1, 1)]⟩
        [((1, 1), [(0, 1)])] [(1, [0])]).2 (1, 1) = some [(0, 1)] ∧
    mlookup (handle_split_node_histogram
        [(⟨1, [13, 14, 15], 6, ∅, []⟩, ⟨2, [10, 11, 12], 3, ∅, []⟩)]
        ⟨180, [], [(1, 5)], [(1, 1)]⟩
        [((1, 1), [(0, 1)])] [(1, [0])]).2 (2, 1) = none ∧
    is_large_node ⟨2, [10, 11, 12], 3, ∅, []⟩ = true ∧
    is_large_node ⟨1, [13, 14, 15], 6, ∅, []⟩ = false := by
  refine ⟨?_, ?_, ?_, ?_⟩ <;> rfl

/-- C7 amended: for a split pair `(child, intermediate)` (with distinct
ids and an allocation entry for the child), the intermediate's
allocation-map entry becomes a copy of the child's entry; and when the
intermediate is large while the child is not, the child's histogram
entries (weighted count, event count and the FIFO references) are renamed
to the intermediate, and the child's overload-detector series are renamed
to the intermediate *for every worker in the child's allocation-map
entry* (series for workers outside that entry are left keyed by the
child, as the counterexample shows). -/
theorem handle_split_pair_spec (child inter : NodeData)
    (hs : SlidingWindowHistogram) (det : DetMap) (allocs : AllocMap) (s : WorkerSet)
    (hids : child.id ≠ inter.id)
    (hsnd : s.Nodup)
    (hcs : mlookup allocs child.id = some s)
    (hlarge : is_large_node inter = true)
    (hsmall : is_large_node child = false) :
    handle_split_nodes_gpu_allocations [(child, inter)] allocs =
      Except.ok (mset allocs inter.id s) ∧
    (∀ v, mlookup hs.histogram child.id = some v →
      mlookup (handle_split_node_histogram [(child, inter)] hs det allocs).1.histogram
          inter.id = some v ∧
      mlookup (handle_split_node_histogram [(child, inter)] hs det allocs).1.histogram
          child.id = none ∧
      mlookup (handle_split_node_histogram [(child, inter)] hs det allocs).1.node_to_count
          inter.id = some ((mlookup hs.node_to_count child.id).getD 0) ∧
      mlookup (handle_split_node_histogram [(child, inter)] hs det allocs).1.node_to_count
          child.id = none ∧
      (handle_split_node_histogram [(child, inter)] hs det allocs).1.timestamps =
        hs.timestamps.map
          (fun e => (e.1, if e.2.1 = child.id then inter.id else e.2.1, e.2.2))) ∧
    (mlookup hs.histogram child.id = none →
      (handle_split_node_histogram [(child, inter)] hs det allocs).1 = hs) ∧
    (∀ g ∈ s, ∀ q, mlookup det (child.id, g) = some q →
      mlookup (handle_split_node_histogram [(child, inter)] hs det allocs).2
          (inter.id, g) = some q ∧
      mlookup (handle_split_node_histogram [(child, inter)] hs det allocs).2
          (child.id, g) = none) := by
  have hred : handle_split_node_histogram [(child, inter)] hs det allocs =
      (histogram_rename_node hs child.id inter.id,
       s.foldl (fun d gpu => detector_rename_node d child.id inter.id gpu)
         det) := by
    simp [handle_split_node_histogram, hlarge, hsmall, hcs]
  refine ⟨?_, ?_, ?_, ?_⟩
  · simp [handle_split_nodes_gpu_allocations, hcs]
  · intro v hv
    rw [hred]
    simp only []
    unfold histogram_rename_node
    rw [hv]
    refine ⟨mlookup_mset_self _ _ _, ?_, mlookup_mset_self _ _ _, ?_, rfl⟩
    · rw [mlookup_mset_ne _ _ _ _ hids, mlookup_mdel_self]
    · rw [mlookup_mset_ne _ _ _ _ hids, mlookup_mdel_self]
  · intro hv
    rw [hred]
    simp only []
    unfold histogram_rename_node
    rw [hv]
  · intro g hg q hq
    rw [hred]
    simp only []
    exact detector_rename_fold_moves s det child.id inter.id hids hsnd g hg q hq

/-! ## The radix tree

The mutual inductive mirrors `LPTreeNode.children` (order = dict insertion
order).  Downward structure is only needed by `update_children`, by the
spec-modelled `LPRadixCache.insert`, and to look node objects up by id. -/

mutual
inductive LPTree : Type where
  | mk : NodeData → LPForest → LPTree
inductive LPForest : Type where
  | nil : LPForest
  | cons : LPTree → LPForest → LPForest
end

def tree_data : LPTree → NodeData
  | .mk d _ => d

def tree_children : LPTree → LPForest
  | .mk _ cs => cs

mutual
def tree_ids : LPTree → List ℕ
  | .mk d cs => d.id :: forest_ids cs
def forest_ids : LPForest → List ℕ
  | .nil => []
  | .cons t rest => tree_ids t ++ forest_ids rest
end

mutual
/-- `GlobalScheduler.update_children`: for each child, overwrite its
allocation entry with `{gpu_id}` and recurse. -/
def update_children : AllocMap → LPTree → ℕ → AllocMap
  | allocs, .mk _ cs, gpu_id => update_children_forest allocs cs gpu_id
def update_children_forest : AllocMap → LPForest → ℕ → AllocMap
  | allocs, .nil, _ => allocs
  | allocs, .cons t rest, gpu_id =>
    update_children_forest
      (update_children (mset allocs (tree_data t).id [gpu_id]) t gpu_id) rest gpu_id
end

mutual
theorem update_children_lookup : ∀ (allocs : AllocMap) (t : LPTree) (g k : ℕ),
    mlookup (update_children allocs t g) k = some [g] ∨
    mlookup (update_children allocs t g) k = mlookup allocs k
  | allocs, .mk _ cs, g, k => update_children_forest_lookup allocs cs g k
theorem update_children_forest_lookup : ∀ (allocs : AllocMap) (cs : LPForest) (g k : ℕ),
    mlookup (update_children_forest allocs cs g) k = some [g] ∨
    mlookup (update_children_forest allocs cs g) k = mlookup allocs k
  | _, .nil, _, _ => Or.inr rfl
  | allocs, .cons t rest, g, k => by
    rcases update_children_forest_lookup
        (update_children (mset allocs (tree_data t).id [g]) t g) rest g k with h | h
    · exact Or.inl h
    · rcases update_children_lookup (mset allocs (tree_data t).id [g]) t g k with h2 | h2
      · exact Or.inl (h.trans h2)
      · by_cases hk : k = (tree_data t).id
        · refine Or.inl ?_
          show mlookup (update_children_forest
            (update_children (mset allocs (tree_data t).id [g]) t g) rest g) k = some [g]
          rw [h, h2, hk, mlookup_mset_self]
        · refine Or.inr ?_
          show mlookup (update_children_forest
            (update_children (mset allocs (tree_data t).id [g]) t g) rest g) k =
            mlookup allocs k
          rw [h, h2, mlookup_mset_ne _ _ _ _ hk]
end

theorem update_children_preserves (allocs : AllocMap) (t : LPTree) (g k : ℕ)
    (h : mlookup allocs k = some [g]) :
    mlookup (update_children allocs t g) k = some [g] := by
  rcases update_children_lookup allocs t g k with h2 | h2
  · exact h2
  · rw [h2]; exact h

theorem update_children_forest_preserves (allocs : AllocMap) (cs : LPForest) (g k : ℕ)
    (h : mlookup allocs k = some [g]) :
    mlookup (update_children_forest allocs cs g) k = some [g] := by
  rcases update_children_forest_lookup allocs cs g k with h2 | h2
  · exact h2
  · rw [h2]; exact h

theorem mem_tree_ids (t : LPTree) (k : ℕ) :
    k ∈ tree_ids t ↔ k = (tree_data t).id ∨ k ∈ forest_ids (tree_children t) := by
  obtain ⟨d, cs⟩ := t
  simp [tree_ids, tree_data, tree_children]

mutual
theorem update_children_sets : ∀ (allocs : AllocMap) (t : LPTree) (g : ℕ),
    ∀ k ∈ forest_ids (tree_children t), mlookup (update_children allocs t g) k = some [g]
  | allocs, .mk _ cs, g => update_children_forest_sets allocs cs g
theorem update_children_forest_sets : ∀ (allocs : AllocMap) (cs : LPForest) (g : ℕ),
    ∀ k ∈ forest_ids cs, mlookup (update_children_forest allocs cs g) k = some [g]
  | allocs, .nil, g => by intro k hk; exact absurd hk (by simp [forest_ids])
  | allocs, .cons t rest, g => by
    intro k hk
    simp only [forest_ids] at hk
    rcases List.mem_append.mp hk with hkt | hkr
    · rcases (mem_tree_ids t k).mp hkt with hid | hcs
      · show mlookup (update_children_forest
            (update_children (mset allocs (tree_data t).id [g]) t g) rest g) k = some [g]
        refine update_children_forest_preserves _ _ _ _
          (update_children_preserves _ _ _ _ ?_)
        rw [hid]
        exact mlookup_mset_self _ _ _
      · show mlookup (update_children_forest
            (update_children (mset allocs (tree_data t).id [g]) t g) rest g) k = some [g]
        exact update_children_forest_preserves _ _ _ _
          (update_children_sets (mset allocs (tree_data t).id [g]) t g k hcs)
    · show mlookup (update_children_forest
          (update_children (mset allocs (tree_data t).id [g]) t g) rest g) k = some [g]
      exact update_children_forest_sets _ rest g k hkr
end

/-! ## Rebalancer, multi-candidate path

The `while node_cost_for_gpu:` loop of
`handle_important_node_stealing_recursive` (lines 346–361).  `heapq` pops
entries in ascending `(cost, node)` order; the heap contents are modelled
as a cost-sorted list (built by `sort_by_cost` below), and the loop walks
it front to back.  The final `List LPTree` output is a ghost record of the
nodes that were reassigned. -/

def handle_multi_node_stealing :
    AllocMap → List (ℚ × LPTree) → ℕ → ℚ → ℚ →
      Except String (AllocMap × ℚ × ℚ × List LPTree)
  | allocs, [], _, hl, cl => Except.ok (allocs, hl, cl, [])
  | allocs, (cost, node) :: rest, cold, hl, cl =>
    if ¬ is_large_node (tree_data node) then Except.error "AssertionError"
    else
      match mlookup allocs (tree_data node).id with
      | none => Except.error "KeyError"
      | some s =>
        if cold ∈ s then handle_multi_node_stealing allocs rest cold hl cl
        else if hl - cost < cl + cost then Except.ok (allocs, hl, cl, [])
        else
          match handle_multi_node_stealing
              (update_children (mset allocs (tree_data node).id [cold]) node cold)
              rest cold (hl - cost) (cl + cost) with
          | Except.error e => Except.error e
          | Except.ok (a, h, c, ghost) => Except.ok (a, h, c, node :: ghost)

/-- The heap as `heapq` serves it: entries in ascending cost order
(cost ties would compare `LPTreeNode` objects and raise `TypeError` in
Python; the stable sort keeps ties in push order). -/
def sort_by_cost (l : List (ℚ × LPTree)) : List (ℚ × LPTree) :=
  List.insertionSort (fun a b => a.1 ≤ b.1) l

theorem handle_multi_node_stealing_ghost :
    ∀ (heap : List (ℚ × LPTree)) (allocs : AllocMap) (cold : ℕ) (hl cl : ℚ)
      (a : AllocMap) (h c : ℚ) (ghost : List LPTree),
      handle_multi_node_stealing allocs heap cold hl cl = Except.ok (a, h, c, ghost) →
      (∀ k, mlookup allocs k = some [cold] → mlookup a k = some [cold]) ∧
      (∀ t ∈ ghost, ∀ k ∈ tree_ids t, mlookup a k = some [cold]) := by
  intro heap
  induction heap with
  | nil =>
    intro allocs cold hl cl a h c ghost hok
    unfold handle_multi_node_stealing at hok
    have heq := Except.ok.inj hok
    have h1 : allocs = a := congrArg Prod.fst heq
    have h4 : ([] : List LPTree) = ghost := congrArg (fun r => r.2.2.2) heq
    subst h1 h4
    exact ⟨fun k hk => hk, by intro t ht; exact absurd ht (by simp)⟩
  | cons p rest ih =>
    obtain ⟨cost, node⟩ := p
    intro allocs cold hl cl a h c ghost hok
    unfold handle_multi_node_stealing at hok
    split at hok
    · exact absurd hok (by simp)
    · split at hok
      · exact absurd hok (by simp)
      · rename_i hnl s hs
        split at hok
        · exact ih allocs cold hl cl a h c ghost hok
        · rename_i hnotin
          split at hok
          · have := Except.ok.inj hok
            have h1 : allocs = a := congrArg Prod.fst this
            have h4 : ([] : List LPTree) = ghost := congrArg (fun r => r.2.2.2) this
            subst h1 h4
            exact ⟨fun k hk => hk, by intro t ht; exact absurd ht (by simp)⟩
          · rename_i hbr
            split at hok
            · exact absurd hok (by simp)
            · rename_i a2 h2q c2 ghost2 hrec
              have := Except.ok.inj hok
              have h1 : a2 = a := congrArg Prod.fst this
              have h4 : node :: ghost2 = ghost := congrArg (fun r => r.2.2.2) this
              subst h1 h4
              obtain ⟨hpres, hghost⟩ :=
                ih (update_children (mset allocs (tree_data node).id [cold]) node cold)
                  cold (hl - cost) (cl + cost) a2 h2q c2 ghost2 hrec
              have hsetnode : ∀ k ∈ tree_ids node,
                  mlookup (update_children (mset allocs (tree_data node).id [cold])
                    node cold) k = some [cold] := by
                intro k hk
                rcases (mem_tree_ids node k).mp hk with hid | hcs
                · refine update_children_preserves _ _ _ _ ?_
                  rw [hid]
                  exact mlookup_mset_self _ _ _
                · exact update_children_sets _ node cold k hcs
              constructor
              · intro k hk
                refine hpres k ?_
                by_cases hknode : k = (tree_data node).id
                · refine update_children_preserves _ _ _ _ ?_
                  rw [hknode]
                  exact mlookup_mset_self _ _ _
                · refine update_children_preserves _ _ _ _ ?_
                  rw [mlookup_mset_ne _ _ _ _ hknode]
                  exact hk
              · intro t ht k hk
                rcases List.mem_cons.mp ht with hteq | htrest
                · subst hteq
                  exact hpres k (hsetnode k hk)
                · exact hghost t htrest k hk

/-- C6: on the multi-candidate rebalancing path, the heap serves nodes in
ascending cost order (`sort_by_cost` output is sorted); a node whose
allocation set already contains the cold worker is skipped with no state
change; the loop stops (returning the state unchanged from that point) as
soon as `hot_load - cost < cold_load + cost`; and when the loop returns,
every reassigned node and every descendant of one has allocation entry
exactly `{cold}` — in particular never the empty set. -/
theorem handle_multi_node_stealing_spec (allocs : AllocMap) (cost : ℚ)
    (node : LPTree) (rest heap : List (ℚ × LPTree)) (cold : ℕ) (hl cl : ℚ)
    (s : WorkerSet) (l : List (ℚ × LPTree)) (a : AllocMap) (h c : ℚ)
    (ghost : List LPTree)
    (hlarge : is_large_node (tree_data node) = true)
    (hs : mlookup allocs (tree_data node).id = some s) :
    (cold ∈ s →
      handle_multi_node_stealing allocs ((cost, node) :: rest) cold hl cl =
        handle_multi_node_stealing allocs rest cold hl cl) ∧
    (cold ∉ s → hl - cost < cl + cost →
      handle_multi_node_stealing allocs ((cost, node) :: rest) cold hl cl =
        Except.ok (allocs, hl, cl, [])) ∧
    (handle_multi_node_stealing allocs heap cold hl cl = Except.ok (a, h, c, ghost) →
      ∀ t ∈ ghost, ∀ k ∈ tree_ids t,
        mlookup a k = some [cold] ∧ mlookup a k ≠ some ([] : WorkerSet)) ∧
    List.Sorted (fun a b => a.1 ≤ b.1) (sort_by_cost l) := by
  refine ⟨?_, ?_, ?_, ?_⟩
  · intro hin
    simp [handle_multi_node_stealing, hlarge, hs, hin]
  · intro hnotin hbr
    simp [handle_multi_node_stealing, hlarge, hs, hnotin, hbr]
  · intro hok t ht k hk
    obtain ⟨-, hghost⟩ :=
      handle_multi_node_stealing_ghost heap allocs cold hl cl a h c ghost hok
    refine ⟨hghost t ht k hk, ?_⟩
    rw [hghost t ht k hk]
    simp
  · haveI : IsTotal (ℚ × LPTree) (fun a b => a.1 ≤ b.1) := ⟨fun a b => le_total a.1 b.1⟩
    haveI : IsTrans (ℚ × LPTree) (fun a b => a.1 ≤ b.1) :=
      ⟨fun a b c hab hbc => le_trans hab hbc⟩
    exact List.sorted_insertionSort _ l

/-! ## The radix cache (spec-modelled) and the full selector -/

/-- Children are keyed by their first token (`parent.children`); at most
one child per leading token. -/
def find_child : LPForest → ℕ → Option LPTree
  | .nil, _ => none
  | .cons t rest, tok =>
    match (tree_data t).value with
    | [] => find_child rest tok
    | v :: _ => if v = tok then some t else find_child rest tok

def replace_child : LPForest → ℕ → LPTree → LPForest
  | .nil, _, _ => .nil
  | .cons t rest, cid, newt =>
    if (tree_data t).id = cid then .cons newt rest
    else .cons t (replace_child rest cid newt)

def forest_append : LPForest → LPTree → LPForest
  | .nil, t => .cons t .nil
  | .cons t0 rest, t => .cons t0 (forest_append rest t)

def common_prefix_len : List ℕ → List ℕ → ℕ
  | a :: arest, b :: brest => if a = b then common_prefix_len arest brest + 1 else 0
  | _, _ => 0

/-- Modelled from the spec: `LPRadixCache.insert` (the cache class lives in
`global_lru_cache`, which is not under `src/`).  Spec 4.A: walk from the
root matching the longest common prefix of `seq` at each step; a partial
match inside an existing child's segment splits the child into a new
intermediate holding the common prefix (inheriting the child's
`cached_gpus`/`ref_counter`) with the trailing remainder (which keeps the
child's identity, children and per-node attributes' storage key) below it;
a leftover suffix of `seq` becomes a sibling leaf.  `splits` receives
`old_child -> new_intermediate`.  Returns the node whose path equals `seq`,
as the chain node/ancestors.  `fuel` only makes the descent structurally
recursive; every descent consumes at least one token, so `seq.length + 1`
never runs out. -/
def insert_go : ℕ → LPTree → List ℕ → ℕ → Chain →
    Except String (LPTree × Chain × List (NodeData × NodeData) × ℕ)
  | _, t, [], fresh, anc => Except.ok (t, tree_data t :: anc, [], fresh)
  | 0, _, _ :: _, _, _ => Except.error "insert: out of fuel (unreachable)"
  | fuel + 1, .mk d cs, tok :: restseq, fresh, anc =>
    match find_child cs tok with
    | none =>
      let leaf : NodeData :=
        ⟨fresh, tok :: restseq, d.context_length + (tok :: restseq).length, [], []⟩
      Except.ok (.mk d (forest_append cs (.mk leaf .nil)),
        leaf :: d :: anc, [], fresh + 1)
    | some (.mk cd ccs) =>
      let k := common_prefix_len cd.value (tok :: restseq)
      if k = cd.value.length then
        match insert_go fuel (.mk cd ccs) ((tok :: restseq).drop k) fresh (d :: anc) with
        | Except.error e => Except.error e
        | Except.ok (c2, chain, splits, fresh2) =>
          Except.ok (.mk d (replace_child cs cd.id c2), chain, splits, fresh2)
      else
        let inter : NodeData :=
          ⟨fresh, cd.value.take k, d.context_length + k, cd.cached_gpus, cd.ref_counter⟩
        let remainder : NodeData := { cd with value := cd.value.drop k }
        if (tok :: restseq).drop k = [] then
          Except.ok (.mk d (replace_child cs cd.id
              (.mk inter (.cons (.mk remainder ccs) .nil))),
            inter :: d :: anc, [(remainder, inter)], fresh + 1)
        else
          let sib : NodeData :=
            ⟨fresh + 1, (tok :: restseq).drop k,
             d.context_length + (tok :: restseq).length, [], []⟩
          Except.ok (.mk d (replace_child cs cd.id
              (.mk inter (.cons (.mk remainder ccs) (.cons (.mk sib .nil) .nil)))),
            sib :: inter :: d :: anc, [(remainder, inter)], fresh + 2)

/-- Modelled from the spec: `LPRadixCache.update_allocated_size(leaf, w)`
"marks `w` cached along the leaf's ancestry" (spec 4.A).  The per-worker
byte accounting it also adjusts is read by no claim and is omitted; the
walk follows the request's token path from the root. -/
def mark_cached_along_path : ℕ → LPTree → List ℕ → ℕ → LPTree
  | _, .mk d cs, [], gpu => .mk { d with cached_gpus := sadd d.cached_gpus gpu } cs
  | 0, t, _ :: _, _ => t
  | fuel + 1, .mk d cs, tok :: restseq, gpu =>
    let d2 := { d with cached_gpus := sadd d.cached_gpus gpu }
    match find_child cs tok with
    | none => .mk d2 cs
    | some c =>
      let k := common_prefix_len (tree_data c).value (tok :: restseq)
      .mk d2 (replace_child cs (tree_data c).id
        (mark_cached_along_path fuel c ((tok :: restseq).drop k) gpu))

/-- `np.argmin`: index of the first minimal entry.  (`np.argmin([])`
raises; the selector only builds lists of length `num_gpus ≥ 1`, and the
empty case is given index 0 here.) -/
def argmin_aux : List ℚ → ℚ → ℕ → ℕ → ℕ
  | [], _, _, best => best
  | x :: xs, bv, i, best =>
    if x < bv then argmin_aux xs x (i + 1) i else argmin_aux xs bv (i + 1) best

def argmin_idx : List ℚ → ℕ
  | [] => 0
  | x :: xs => argmin_aux xs x 1 0

theorem argmin_aux_lt (xs : List ℚ) : ∀ (bv : ℚ) (i best : ℕ), best < i →
    argmin_aux xs bv i best < i + xs.length := by
  induction xs with
  | nil => intro bv i best h; simpa [argmin_aux] using h
  | cons x xs ih =>
    intro bv i best h
    unfold argmin_aux
    rw [List.length_cons]
    by_cases hx : x < bv
    · rw [if_pos hx]
      have := ih x (i + 1) i (by omega)
      omega
    · rw [if_neg hx]
      have := ih bv (i + 1) best (by omega)
      omega

theorem argmin_idx_lt (l : List ℚ) (h : l ≠ []) : argmin_idx l < l.length := by
  cases l with
  | nil => exact absurd rfl h
  | cons x xs =>
    have := argmin_aux_lt xs x 1 0 (by omega)
    simp only [argmin_idx, List.length_cons]
    omega

/-- `runtime_idx = list(gpu_selected)[0]`, replaced by
`np.random.choice(list(gpu_selected))` when the set has more than one
element; the random draw is the parameter `pick`.  `list(s)[0]` on an
empty set raises `IndexError`. -/
def pick_runtime_idx (pick : WorkerSet → ℕ) : WorkerSet → Except String ℕ
  | [] => Except.error "IndexError"
  | x :: rest => if rest = [] then Except.ok x else Except.ok (pick (x :: rest))

theorem pick_runtime_idx_mem (pick : WorkerSet → ℕ) (s : WorkerSet) (idx : ℕ)
    (hpick : ∀ s0 : WorkerSet, s0 ≠ [] → pick s0 ∈ s0)
    (h : pick_runtime_idx pick s = Except.ok idx) : idx ∈ s := by
  cases s with
  | nil => exact absurd h (by simp [pick_runtime_idx])
  | cons x rest =>
    simp only [pick_runtime_idx] at h
    by_cases hr : rest = []
    · rw [if_pos hr] at h
      rw [(Except.ok.inj h).symm]
      exact List.mem_cons_self x rest
    · rw [if_neg hr] at h
      rw [(Except.ok.inj h).symm]
      exact hpick (x :: rest) (by simp)

structure GlobalSchedulerState where
  num_gpus : ℕ
  gpu_allocations : AllocMap
  per_gpu_load : List (ℕ × ℕ)
  histogram : SlidingWindowHistogram
  overload_detector : DetMap
  detector_half_window : ℚ
  cache : LPTree
  fresh_id : ℕ
  counter : ℕ
  high_load_threshold : ℚ
  enable_rebalancing : Bool

/-- `GlobalScheduler.__init__(num_nodes, ...)`: both windows are
`timedelta(minutes=3)` = 180 s (half window 90 s), threshold 1.4 = 7/5,
the cache holds only the root (id 0, empty segment), rebalancing on. -/
def init_scheduler (num_nodes : ℕ) : GlobalSchedulerState :=
  { num_gpus := num_nodes
    gpu_allocations := []
    per_gpu_load := (List.range num_nodes).map (fun i => (i, 0))
    histogram := ⟨180, [], [], []⟩
    overload_detector := []
    detector_half_window := 90
    cache := .mk ⟨0, [], 0, [], []⟩ .nil
    fresh_id := 1
    counter := 0
    high_load_threshold := 7 / 5
    enable_rebalancing := true }

mutual
def find_subtree : LPTree → ℕ → Option LPTree
  | .mk d cs, nid => if d.id = nid then some (.mk d cs) else find_subtree_forest cs nid
def find_subtree_forest : LPForest → ℕ → Option LPTree
  | .nil, _ => none
  | .cons t rest, nid =>
    match find_subtree t nid with
    | some r => some r
    | none => find_subtree_forest rest nid
end

/-- The heap-building loop of `handle_important_node_stealing_recursive`
(lines 329–333): for each histogram node allocated on the hot device with
more than one event, push `(cost, node)`.  `gpu_allocations.get(node)`
without a default raises `TypeError` on `in None` when the node has no
entry.  Histogram keys are arena ids; the node object is recovered from
the tree by id. -/
def build_node_cost_heap : CountMap → CountMap → AllocMap → LPTree → ℕ →
    Except String (List (ℚ × LPTree))
  | [], _, _, _, _ => Except.ok []
  | (nid, cost) :: rest, counts, allocs, tree, larger_device =>
    match mlookup allocs nid with
    | none => Except.error "TypeError: argument of type NoneType is not iterable"
    | some s =>
      match build_node_cost_heap rest counts allocs tree larger_device with
      | Except.error e => Except.error e
      | Except.ok acc =>
        if larger_device ∈ s ∧ (mlookup counts nid).getD 0 > 1 then
          match find_subtree tree nid with
          | none => Except.error "histogram node not present in the tree"
          | some t => Except.ok (((cost : ℚ), t) :: acc)
        else Except.ok acc

def replace_last : List (ℕ × ℚ) → (ℕ × ℚ) → List (ℕ × ℚ)
  | [], _ => []
  | [_], x => [x]
  | a :: b :: rest, x => a :: replace_last (b :: rest) x

theorem replace_last_length (l : List (ℕ × ℚ)) (x : ℕ × ℚ) :
    (replace_last l x).length = l.length := by
  induction l with
  | nil => rfl
  | cons a rest ih =>
    cases rest with
    | nil => rfl
    | cons b r2 => simpa [replace_last] using ih

/-- `GlobalScheduler.handle_important_node_stealing_recursive`.  The
allocation map, detector, tree and histogram are the shared scheduler
state; `half_window`/`now` feed the overload test and `threshold` is
`self.HIGH_LOAD_THRESHOLD`.  The single-entry heap takes the
replication path; otherwise the multi-candidate loop runs (an empty heap
runs it zero times); either way the list shrinks by its head and the tail
(its last entry refreshed) recurses. -/
def handle_important_node_stealing_recursive :
    List (ℕ × ℚ) → AllocMap → DetMap → LPTree → SlidingWindowHistogram → ℚ → ℚ → ℚ →
      Except String (AllocMap × DetMap)
  | [], _, _, _, _, _, _, _ => Except.error "IndexError"
  | [_], allocs, det, _, _, _, _, _ => Except.ok (allocs, det)
  | (larger_device, larger_cost) :: next :: rest, allocs, det, tree, hg,
      half_window, now, threshold =>
    let smaller := (next :: rest).getLastD (0, 0)
    if larger_cost < threshold * smaller.2 then Except.ok (allocs, det)
    else
      match build_node_cost_heap hg.histogram hg.node_to_count allocs tree larger_device with
      | Except.error e => Except.error e
      | Except.ok entries =>
        match sort_by_cost entries with
        | [(cost, node)] =>
          match handle_single_node_stealing allocs det half_window now
              (tree_data node).id larger_device smaller.1 cost larger_cost smaller.2 with
          | Except.error e => Except.error e
          | Except.ok (a2, d2, _, sc2) =>
            handle_important_node_stealing_recursive
              (replace_last (next :: rest) (smaller.1, sc2)) a2 d2 tree hg
              half_window now threshold
        | heap =>
          match handle_multi_node_stealing allocs heap smaller.1 larger_cost smaller.2 with
          | Except.error e => Except.error e
          | Except.ok (a2, _, sc2, _) =>
            handle_important_node_stealing_recursive
              (replace_last (next :: rest) (smaller.1, sc2)) a2 det tree hg
              half_window now threshold
  termination_by l _ _ _ _ _ _ _ => l.length
  decreasing_by
    all_goals simp [replace_last_length]

def load_sum (load : List (ℕ × ℕ)) : ℕ := (load.map Prod.snd).sum

/-- `GlobalScheduler.handle_important_node_stealing`: warm-up guard at a
total load of 50, then the per-gpu histogram loads sorted descending
(stably, as `sorted(key=lambda x: -x[1])`) feed the recursion. -/
def handle_important_node_stealing (st : GlobalSchedulerState) (now : ℚ) :
    Except String (AllocMap × DetMap) :=
  if load_sum st.per_gpu_load < 50 then Except.ok (st.gpu_allocations, st.overload_detector)
  else
    match current_allocation_per_gpu st.num_gpus st.histogram.histogram st.gpu_allocations with
    | Except.error e => Except.error e
    | Except.ok allocation_cost_per_gpu =>
      handle_important_node_stealing_recursive
        (List.insertionSort (fun a b : ℕ × ℚ => b.2 ≤ a.2) allocation_cost_per_gpu.enum)
        st.gpu_allocations st.overload_detector st.cache st.histogram
        st.detector_half_window now st.high_load_threshold

/-- The worker-set selection of `runtime_selector` (lines 259–271): small
leaves inherit the parent allocation; otherwise the preferred worker, or
the argmin of basic recompute cost plus histogram load. -/
def select_gpu (num_gpus : ℕ) (allocs : AllocMap) (hist : CountMap)
    (leaf_chain : Chain) (leaf : NodeData) (parents : Chain) (pref : Option ℕ) :
    Except String WorkerSet :=
  if (num_tokens leaf : ℤ) < (leaf.context_length : ℤ) - (num_tokens leaf : ℤ) then
    Except.ok (get_parent_gpu_allocation num_gpus allocs leaf_chain)
  else
    match pref with
    | none =>
      match current_allocation_per_gpu num_gpus hist allocs with
      | Except.error e => Except.error e
      | Except.ok histogram_mem_cost =>
        Except.ok [argmin_idx ((List.range num_gpus).map (fun gpu_id =>
          (get_recomp_cost_basic parents gpu_id : ℚ) +
            histogram_mem_cost.getD gpu_id 0))]
    | some preferred => Except.ok [preferred]

/-- `GlobalScheduler.runtime_selector`.  The state is threaded explicitly;
an exception carries the state as mutated up to the raise (the Python
`with self.lock:` releases the lock but keeps prior mutations).  `pick`
stands for `np.random.choice`; `now` for `datetime.now()` inside the
call.  The metrics log and the dead `counter % 500` branch are omitted. -/
def runtime_selector (st : GlobalSchedulerState) (input_ids : List ℕ)
    (runtime_id_with_highest_hit_rate : Option ℕ) (pick : WorkerSet → ℕ) (now : ℚ) :
    Except (String × GlobalSchedulerState) (GlobalSchedulerState × ℕ) :=
  match insert_go (input_ids.length + 1) st.cache input_ids st.fresh_id [] with
  | Except.error e => Except.error (e, st)
  | Except.ok (tree1, leaf_chain, split_nodes, fresh1) =>
    let st1 := { st with cache := tree1, fresh_id := fresh1 }
    match handle_split_nodes_gpu_allocations split_nodes st1.gpu_allocations with
    | Except.error e => Except.error (e, st1)
    | Except.ok allocs1 =>
      let st2 := { st1 with gpu_allocations := allocs1 }
      let hd := handle_split_node_histogram split_nodes st2.histogram
        st2.overload_detector st2.gpu_allocations
      let st3 := { st2 with histogram := hd.1, overload_detector := hd.2 }
      match get_important_node leaf_chain with
      | Except.error e => Except.error (e, st3)
      | Except.ok important_node =>
        match leaf_chain with
        | [] => Except.error ("unreachable: insert always returns a node", st3)
        | leaf :: parents =>
          match select_gpu st3.num_gpus st3.gpu_allocations st3.histogram.histogram
              (leaf :: parents) leaf parents runtime_id_with_highest_hit_rate with
          | Except.error e => Except.error (e, st3)
          | Except.ok gpu_selected =>
            let hu := histogram_update st3.histogram st3.gpu_allocations now
              important_node.id leaf.context_length
            let st4 := { st3 with histogram := hu.1, gpu_allocations := hu.2.1 }
            let allocs5 := update_gpu_allocation_for_parent st4.gpu_allocations
              (leaf :: parents) gpu_selected
            let st5 := { st4 with gpu_allocations := allocs5 }
            match pick_runtime_idx pick gpu_selected with
            | Except.error e => Except.error (e, st5)
            | Except.ok runtime_idx =>
              match mlookup st5.per_gpu_load runtime_idx with
              | none => Except.error ("KeyError", st5)
              | some v =>
                let st6 := { st5 with
                  per_gpu_load := mset st5.per_gpu_load runtime_idx (v + 1) }
                let cache7 := mark_cached_along_path (input_ids.length + 1)
                  st6.cache input_ids runtime_idx
                let st7 := { st6 with cache := cache7 }
                if st7.enable_rebalancing then
                  match handle_important_node_stealing st7 now with
                  | Except.error e => Except.error (e, st7)
                  | Except.ok (a2, d2) =>
                    let st8 := { st7 with gpu_allocations := a2 }
                    let st9 := { st8 with overload_detector := d2 }
                    Except.ok ({ st9 with counter := st9.counter + 1 }, runtime_idx)
                else
                  Except.ok ({ st7 with counter := st7.counter + 1 }, runtime_idx)

/-- A concrete stand-in for `np.random.choice` (never consulted in the
scenarios below, where every selected set is a singleton). -/
def pick_head (s : WorkerSet) : ℕ := s.headD 0

theorem pick_head_mem (s : WorkerSet) (h : s ≠ []) : pick_head s ∈ s := by
  cases s with
  | nil => exact absurd rfl h
  | cons x rest => exact List.mem_cons_self x rest

/-- Route `[10,11,12,13]` then `[20,21,22,23]` through a fresh 2-worker
scheduler, returning the two chosen worker ids. -/
def route_two_disjoint_requests : Option (ℕ × ℕ) :=
  match runtime_selector (init_scheduler 2) [10, 11, 12, 13] none pick_head 0 with
  | Except.error _ => none
  | Except.ok (st1, i1) =>
    match runtime_selector st1 [20, 21, 22, 23] none pick_head 1 with
    | Except.error _ => none
    | Except.ok (_, i2) => some (i1, i2)

/-- C2: with two workers and an initially empty scheduler and no preferred
worker, routing `[10,11,12,13]` returns worker 0 (histogram empty, equal
recompute costs, argmin tie broken at the lowest index) and the following
route of the disjoint `[20,21,22,23]` returns worker 1 (equal recompute
costs again, but the histogram now charges worker 0 with load 4 and
worker 1 with 0). -/
theorem except_pure_eq {ε α : Type} (a : α) : (pure a : Except ε α) = Except.ok a := rfl

theorem except_ok_bind {ε α β : Type} (a : α) (f : α → Except ε β) :
    Except.ok a >>= f = f a := rfl

theorem except_error_bind {ε α β : Type} (e : ε) (f : α → Except ε β) :
    (Except.error e : Except ε α) >>= f = Except.error e := rfl

theorem route_two_disjoint_requests_eq : route_two_disjoint_requests = some (0, 1) := by
  norm_num [route_two_disjoint_requests, runtime_selector, init_scheduler, insert_go,
    find_child, forest_append, replace_child, common_prefix_len, tree_data,
    handle_split_nodes_gpu_allocations, handle_split_node_histogram, get_important_node,
    is_large_node, num_tokens, select_gpu, get_parent_gpu_allocation,
    current_allocation_per_gpu, alloc_fold_node, bumpAt, get_recomp_cost_basic,
    has_cached_gpu, argmin_idx, argmin_aux, histogram_update, remove_old_entries,
    remove_old_entries_loop, update_gpu_allocation_for_parent, sunion, sadd,
    pick_runtime_idx, mlookup, mset, mdel, mark_cached_along_path,
    handle_important_node_stealing, load_sum, pick_head, except_pure_eq,
    except_ok_bind, except_error_bind,
    List.foldlM_nil, List.foldlM_cons, List.foldl_nil, List.foldl_cons,
    List.range_succ, List.range_zero, List.map_cons, List.map_nil, List.map_append,
    List.replicate, List.getD, List.filter_cons, List.filter_nil, List.headD,
    List.getLastD, Option.getD, List.length_cons, List.length_nil,
    List.getElem?_cons_zero, List.getElem?_cons_succ, List.getElem?_nil]

/-- C10: routing an empty token sequence fails before any state mutation.
`insert` returns the root itself (no split, no new node), and
`get_important_node` walks past the root — the root is never large since
its segment is empty — calling `is_large_node(None)`, which raises
`AttributeError`.  The raise happens before the histogram update, the
allocation-map update and the load-counter bump, so the error carries the
scheduler state exactly as it was: tree, histogram, allocation map and
per-worker loads unchanged. -/
theorem runtime_selector_empty_input (st : GlobalSchedulerState)
    (pref : Option ℕ) (pick : WorkerSet → ℕ) (now : ℚ)
    (hroot : (tree_data st.cache).value = []) :
    runtime_selector st [] pref pick now =
      Except.error ("AttributeError: NoneType has no attribute num_tokens", st) := by
  have hlarge : is_large_node (tree_data st.cache) = false := by
    unfold is_large_node num_tokens
    rw [hroot]
    simp only [List.length_nil, Nat.cast_zero, sub_zero]
    exact decide_eq_false (not_lt.mpr (Int.natCast_nonneg _))
  simp [runtime_selector, insert_go, handle_split_nodes_gpu_allocations,
    handle_split_node_histogram, get_important_node, hlarge, except_pure_eq]

/-! ## Worker ids stay in range (C1) -/

/-- The data-model typing of the allocation map: every stored worker set
holds ids below `num_gpus`. -/
def alloc_bounds (n : ℕ) (m : AllocMap) : Prop :=
  ∀ k s, mlookup m k = some s → ∀ g ∈ s, g < n

theorem get_parent_gpu_allocation_ne_nil (n : ℕ) (allocs : AllocMap) (chain : Chain)
    (hn : 1 ≤ n) : get_parent_gpu_allocation n allocs chain ≠ [] := by
  induction chain with
  | nil =>
    unfold get_parent_gpu_allocation
    simp only [ne_eq, List.range_eq_nil]
    omega
  | cons d rest ih =>
    unfold get_parent_gpu_allocation
    by_cases h : (mlookup allocs d.id).getD [] ≠ []
    · rw [if_pos h]; exact h
    · rw [if_neg h]; exact ih

theorem get_parent_gpu_allocation_fallback (n : ℕ) (allocs : AllocMap) (chain : Chain)
    (h : ∀ d ∈ chain, (mlookup allocs d.id).getD [] = []) :
    get_parent_gpu_allocation n allocs chain = List.range n := by
  induction chain with
  | nil => rfl
  | cons d rest ih =>
    unfold get_parent_gpu_allocation
    rw [if_neg (not_not.mpr (h d (by simp)))]
    exact ih (fun d2 hd2 => h d2 (List.mem_cons_of_mem _ hd2))

theorem get_parent_gpu_allocation_bounds (n : ℕ) (allocs : AllocMap) (chain : Chain)
    (hb : alloc_bounds n allocs) :
    ∀ g ∈ get_parent_gpu_allocation n allocs chain, g < n := by
  induction chain with
  | nil =>
    intro g hg
    unfold get_parent_gpu_allocation at hg
    exact List.mem_range.mp hg
  | cons d rest ih =>
    unfold get_parent_gpu_allocation
    by_cases h : (mlookup allocs d.id).getD [] ≠ []
    · rw [if_pos h]
      intro g hg
      cases hl : mlookup allocs d.id with
      | none => rw [hl] at h; simp at h
      | some s =>
        rw [hl] at hg
        exact hb d.id s hl g (by simpa using hg)
    · rw [if_neg h]; exact ih

theorem alloc_bounds_mset (n : ℕ) (m : AllocMap) (k : ℕ) (v : WorkerSet)
    (hb : alloc_bounds n m) (hv : ∀ g ∈ v, g < n) : alloc_bounds n (mset m k v) := by
  intro k2 s hs g hg
  by_cases hk : k2 = k
  · subst hk
    rw [mlookup_mset_self] at hs
    cases hs
    exact hv g hg
  · rw [mlookup_mset_ne _ _ _ _ hk] at hs
    exact hb k2 s hs g hg

theorem handle_split_bounds :
    ∀ (splits : List (NodeData × NodeData)) (allocs a2 : AllocMap) (n : ℕ),
      alloc_bounds n allocs →
      handle_split_nodes_gpu_allocations splits allocs = Except.ok a2 →
      alloc_bounds n a2 := by
  intro splits
  induction splits with
  | nil =>
    intro allocs a2 n hb h
    simp only [handle_split_nodes_gpu_allocations, List.foldlM_nil, except_pure_eq] at h
    cases Except.ok.inj h
    exact hb
  | cons cp rest ih =>
    intro allocs a2 n hb h
    simp only [handle_split_nodes_gpu_allocations, List.foldlM_cons] at h
    split at h
    · exact absurd h (by simp [except_error_bind])
    · rename_i s hl
      rw [except_ok_bind] at h
      exact ih _ a2 n (alloc_bounds_mset n allocs cp.2.id s hb (hb cp.1.id s hl)) h

theorem select_gpu_spec (num_gpus : ℕ) (allocs : AllocMap) (hist : CountMap)
    (leaf_chain : Chain) (leaf : NodeData) (parents : Chain) (pref : Option ℕ)
    (s : WorkerSet)
    (hn : 1 ≤ num_gpus)
    (hb : alloc_bounds num_gpus allocs)
    (hpref : ∀ p, pref = some p → p < num_gpus)
    (h : select_gpu num_gpus allocs hist leaf_chain leaf parents pref = Except.ok s) :
    s ≠ [] ∧ ∀ g ∈ s, g < num_gpus := by
  unfold select_gpu at h
  split at h
  · cases Except.ok.inj h
    exact ⟨get_parent_gpu_allocation_ne_nil _ _ _ hn,
      get_parent_gpu_allocation_bounds _ _ _ hb⟩
  · split at h
    · split at h
      · exact absurd h (by simp)
      · rename_i costs hcosts
        cases Except.ok.inj h
        refine ⟨by simp, ?_⟩
        intro g hg
        rw [List.mem_singleton] at hg
        subst hg
        have hne : ((List.range num_gpus).map (fun gpu_id =>
            (get_recomp_cost_basic parents gpu_id : ℚ) + costs.getD gpu_id 0)) ≠ [] := by
          refine List.ne_nil_of_length_pos ?_
          simp only [List.length_map, List.length_range]
          omega
        have := argmin_idx_lt _ hne
        simpa using this
    · cases Except.ok.inj h
      refine ⟨by simp, ?_⟩
      intro g hg
      rw [List.mem_singleton] at hg
      subst hg
      exact hpref _ rfl

/-- C1: with `num_workers ≥ 1` and the data-model typing of the request
(allocation sets, the preferred-worker hint and the random draw all range
over valid worker ids), every `runtime_selector` call that returns does so
with a worker id in `[0, num_gpus)`; the intermediate candidate set
`get_parent_gpu_allocation` is never empty, and when the inherited
allocation entries are empty or absent all the way to the root it is
exactly the full worker set `range num_gpus`. -/
theorem runtime_selector_worker_in_range (st : GlobalSchedulerState)
    (input_ids : List ℕ) (pref : Option ℕ) (pick : WorkerSet → ℕ) (now : ℚ)
    (chain : Chain)
    (hn : 1 ≤ st.num_gpus)
    (hb : alloc_bounds st.num_gpus st.gpu_allocations)
    (hpref : ∀ p, pref = some p → p < st.num_gpus)
    (hpick : ∀ s : WorkerSet, s ≠ [] → pick s ∈ s) :
    (match runtime_selector st input_ids pref pick now with
     | Except.ok r => r.2 < st.num_gpus
     | Except.error _ => True) ∧
    get_parent_gpu_allocation st.num_gpus st.gpu_allocations chain ≠ [] ∧
    ((∀ d ∈ chain, (mlookup st.gpu_allocations d.id).getD [] = []) →
      get_parent_gpu_allocation st.num_gpus st.gpu_allocations chain =
        List.range st.num_gpus) := by
  refine ⟨?_, get_parent_gpu_allocation_ne_nil _ _ _ hn,
    fun h => get_parent_gpu_allocation_fallback _ _ _ h⟩
  cases hres : runtime_selector st input_ids pref pick now with
  | error e => exact trivial
  | ok r =>
    show r.2 < st.num_gpus
    simp only [runtime_selector] at hres
    split at hres
    · exact absurd hres (by simp)
    · split at hres
      · exact absurd hres (by simp)
      · rename_i allocs1 hsplit
        split at hres
        · exact absurd hres (by simp)
        · split at hres
          · exact absurd hres (by simp)
          · split at hres
            · exact absurd hres (by simp)
            · rename_i gpu_selected hsel
              split at hres
              · exact absurd hres (by simp)
              · rename_i runtime_idx hpickok
                have hb1 : alloc_bounds st.num_gpus allocs1 :=
                  handle_split_bounds _ _ _ _ hb hsplit
                have hmem : runtime_idx ∈ gpu_selected :=
                  pick_runtime_idx_mem pick gpu_selected runtime_idx hpick hpickok
                have hidx : runtime_idx < st.num_gpus := by
                  obtain ⟨-, hbnd⟩ :=
                    select_gpu_spec _ _ _ _ _ _ _ _ hn hb1 hpref hsel
                  exact hbnd _ hmem
                split at hres
                · exact absurd hres (by simp)
                · split at hres
                  · split at hres
                    · exact absurd hres (by simp)
                    · cases Except.ok.inj hres
                      exact hidx
                  · cases Except.ok.inj hres
                    exact hidx

/-! ## Concrete witnesses -/

theorem histogram_update_purges_witness :
    mlookup (histogram_update ⟨180, [(0, 1, 5)], [(1, 5)], [(1, 1)]⟩
      [(1, [0])] 300 2 4).1.histogram 1 = none ∧
    mlookup (histogram_update ⟨180, [(0, 1, 5)], [(1, 5)], [(1, 1)]⟩
      [(1, [0])] 300 2 4).1.node_to_count 1 = none ∧
    mlookup (histogram_update ⟨180, [(0, 1, 5)], [(1, 5)], [(1, 1)]⟩
      [(1, [0])] 300 2 4).2.1 1 = some [] := by
  have h := histogram_update_purges ⟨180, [(0, 1, 5)], [(1, 5)], [(1, 1)]⟩
    [(1, [0])] 300 2 4 (by simp)
    (by intro e he; simp only [List.mem_singleton] at he; rw [he]; norm_num)
  exact h.2 1 (by
    norm_num [histogram_update, remove_old_entries, remove_old_entries_loop,
      mlookup, mset, mdel])

theorem handle_single_node_stealing_spec_witness :
    handle_single_node_stealing [(5, [0])] [((5, 0), [(0, 1), (50, 4)])]
        90 100 5 0 1 10 100 20 =
      Except.ok (mset [(5, [0])] 5 (sadd [0] 1),
        delete_after_allocation [((5, 0), [(0, 1), (50, 4)])] 5 0,
        100 - 10 / 2, 20 + 10 / 2) ∧
    mlookup (delete_after_allocation [((5, 0), [(0, 1), (50, 4)])] 5 0) (5, 0) = none := by
  have h := handle_single_node_stealing_spec [(5, [0])] [((5, 0), [(0, 1), (50, 4)])]
    90 100 5 0 1 10 100 20 [0] (by simp [mlookup])
  have hov : is_node_overloaded 90 [((5, 0), [(0, 1), (50, 4)])] 100 5 0 =
      Except.ok true := by
    norm_num [is_node_overloaded, calculate_half_window_averages, mlookup, listAvg]
  have h1 := h.1 (by simp) hov
  exact ⟨h1.1, h1.2.2⟩

def steal_sample_tree : LPTree :=
  .mk ⟨7, [1, 2], 3, [], []⟩ (.cons (.mk ⟨8, [9], 4, [], []⟩ .nil) .nil)

theorem handle_multi_node_stealing_spec_witness :
    mlookup [(7, [1]), (8, [1])] 8 = some [1] ∧
    mlookup [(7, [1]), (8, [1])] 8 ≠ some ([] : WorkerSet) := by
  have h := handle_multi_node_stealing_spec [(7, [0])] 3 steal_sample_tree []
    [(3, steal_sample_tree)] 1 10 0 [0] [] [(7, [1]), (8, [1])] 7 3 [steal_sample_tree]
    (by rfl) (by simp [mlookup, steal_sample_tree, tree_data])
  refine h.2.2.1 ?_ steal_sample_tree (by simp) 8 ?_
  · norm_num [handle_multi_node_stealing, steal_sample_tree, tree_data, is_large_node,
      num_tokens, mlookup, mset, update_children, update_children_forest]
  · simp [steal_sample_tree, tree_ids, forest_ids, tree_data]

def split_sample_child : NodeData := ⟨1, [13, 14, 15], 6, [], []⟩

def split_sample_inter : NodeData := ⟨2, [10, 11, 12], 3, [], []⟩

theorem handle_split_pair_spec_witness :
    handle_split_nodes_gpu_allocations [(split_sample_child, split_sample_inter)]
        [(1, [0])] = Except.ok (mset [(1, [0])] 2 [0]) ∧
    mlookup (handle_split_node_histogram [(split_sample_child, split_sample_inter)]
        ⟨180, [], [(1, 5)], [(1, 1)]⟩ [((1, 0), [(0, 2)])] [(1, [0])]).2 (2, 0) =
      some [(0, 2)] ∧
    mlookup (handle_split_node_histogram [(split_sample_child, split_sample_inter)]
        ⟨180, [], [(1, 5)], [(1, 1)]⟩ [((1, 0), [(0, 2)])] [(1, [0])]).2 (1, 0) = none := by
  have h := handle_split_pair_spec split_sample_child split_sample_inter
    ⟨180, [], [(1, 5)], [(1, 1)]⟩ [((1, 0), [(0, 2)])] [(1, [0])] [0]
    (by decide) (by simp) (by simp [mlookup, split_sample_child]) (by rfl) (by rfl)
  have hdet := h.2.2.2 0 (by simp) [(0, 2)] (by simp [mlookup, split_sample_child])
  exact ⟨h.1, hdet.1, hdet.2⟩

theorem current_allocation_per_gpu_spec_witness :
    current_allocation_per_gpu 2 [(1, 4)] [(1, [0])] = Except.ok [4, 0] := by
  obtain ⟨v, hok, hlen, hget, -⟩ := current_allocation_per_gpu_spec 2 [(1, 4)] [(1, [0])]
    (by
      intro k s h g hg
      simp only [mlookup] at h
      split at h
      · cases Option.some.inj h
        simp only [List.mem_singleton] at hg
        omega
      · exact absurd h (by simp))
    (by
      intro k s h
      simp only [mlookup] at h
      split at h
      · cases Option.some.inj h
        simp
      · exact absurd h (by simp))
  have h0 := hget 0
  have h1 := hget 1
  norm_num [spec_per_worker_load, mlookup] at h0 h1
  rw [hok]
  congr 1
  cases v with
  | nil => simp at hlen
  | cons a t =>
    cases t with
    | nil => simp at hlen
    | cons b t2 =>
      cases t2 with
      | nil =>
        simp only [List.getD, List.getElem?_cons_zero, List.getElem?_cons_succ,
          Option.getD_some] at h0 h1
        rw [h0, h1]
      | cons c t3 => simp at hlen

theorem runtime_selector_worker_in_range_witness :
    (match runtime_selector (init_scheduler 2) [10, 11, 12, 13] none pick_head 0 with
     | Except.ok r => r.2 < (init_scheduler 2).num_gpus
     | Except.error _ => True) ∧
    get_parent_gpu_allocation (init_scheduler 2).num_gpus
        (init_scheduler 2).gpu_allocations [] =
      List.range (init_scheduler 2).num_gpus := by
  have h := runtime_selector_worker_in_range (init_scheduler 2) [10, 11, 12, 13]
    none pick_head 0 [] (by decide)
    (by intro k s hks g hg; simp [init_scheduler, mlookup] at hks)
    (by intro p hp; cases hp) pick_head_mem
  exact ⟨h.1, h.2.2 (by simp)⟩

theorem runtime_selector_empty_input_witness :
    runtime_selector (init_scheduler 2) [] none pick_head 0 =
      Except.error ("AttributeError: NoneType has no attribute num_tokens",
        init_scheduler 2) :=
  runtime_selector_empty_input (init_scheduler 2) none pick_head 0 rfl
